import Mathlib

/-!
Shallow embedding of `src/values/__init__.py` (the `pyvalues` class of the
python-values repository) and proofs about its equality, hashing, subscript
and invocation semantics.

Python values stored inside a `pyvalues` instance are modelled by the
inductive type `Val` below: it contains hashable atoms (ints, strings) and
unhashable containers (mutable lists and dicts), which is the distinction the
hashing code of the source observes.  Python's builtin `hash` on this value
universe is modelled by `hashable` / `pyhashV`: `hash` succeeds exactly on
hashable values, and its numeric result is an arbitrary but fixed function of
the value.  Python dictionaries (`self.__kwds` in the source) are modelled as
association lists with no duplicate keys, the invariant every real Python
dict has; insertion order is kept, exactly as CPython keeps it, and the
equality and hashing operations are insensitive to it, which is what the
theorems below establish.
-/

set_option autoImplicit false

namespace Values

/-- The universe of Python values a `pyvalues` instance may store.
`VInt`/`VStr`/`VNone` are hashable atoms; `VList` and `VDictV` model the
mutable (hence unhashable) containers used by the repository's hashing
tests.  No operation of the source ever inspects the contents of an
unhashable container (equality dispatches on the operand's category before
looking inside, and hashing fails as soon as the container itself is
reached), so primitive payloads suffice for the containers. -/
inductive Val : Type where
  | VInt : Int → Val
  | VStr : String → Val
  | VNone : Val
  | VList : List Int → Val
  | VDictV : List (String × Int) → Val
  deriving DecidableEq, Repr

open Val

/-- Model of "this Python value is hashable": true on atoms, false on the
mutable containers (`list`, `dict`). -/
def hashable : Val → Bool
  | VList _ => false
  | VDictV _ => false
  | _ => true

/-- Model of Python's builtin `hash` restricted to hashable values: an
arbitrary fixed injection-like mix; its exact numbers are irrelevant to the
claims, only that it is a function of the value. -/
def pyhashV : Val → Nat
  | VInt n => n.natAbs * 2 + (if n < 0 then 1 else 0)
  | VStr s => s.hash.toNat * 2 + 1
  | VNone => 5
  | VList _ => 0
  | VDictV _ => 0

/-- Errors the source can raise, under the spec's names:
`TypeError` from hashing unhashable contents is `unhashableValue`,
`IndexError` is `indexOutOfRange`, `KeyError` is `keyNotFound`, and the
`TypeError` from an arity/keyword mismatch at invocation time is
`signatureMismatch`. -/
inductive PyErr : Type where
  | unhashableValue : PyErr
  | indexOutOfRange : PyErr
  | keyNotFound : PyErr
  | signatureMismatch : PyErr
  deriving DecidableEq, Repr

/-- First-match lookup in an association list, the semantics of Python's
`d[k]` on the insertion-ordered entry list of a dict. -/
def dlookup (k : String) : List (String × Val) → Option Val
  | [] => none
  | e :: rest => if e.1 = k then some e.2 else dlookup k rest

/-- A Python dict (`self.__kwds` in the source): its entries in insertion
order, with the keys unique — the invariant every real dict maintains. -/
structure PyDict : Type where
  entries : List (String × Val)
  nodup : (entries.map Prod.fst).Nodup

/-- Python dict equality, as CPython implements it: same size, and every
entry of the left dict is found with the same value in the right one.
Insertion order plays no role. -/
def dictEqB (a b : List (String × Val)) : Bool :=
  (a.length == b.length) && a.all (fun e => dlookup e.1 b == some e.2)

/-- The `pyvalues` class of `src/values/__init__.py`: a tuple subclass whose
tuple part holds the positional arguments (`args` of `__new__`) and which
carries the keyword arguments in `self.__kwds`. -/
structure pyvalues : Type where
  args : List Val
  kwds : PyDict

/-- The runtime category of the `other` operand of `pyvalues.__eq__`, which
the source dispatches on with `isinstance` checks: another `pyvalues`
instance, a plain `tuple`, a plain `dict`, or anything else.  The source
checks `isinstance(other, _values)` before `isinstance(other, tuple)`, so a
`pyvalues` operand always lands in the first case even though it is also a
tuple; the four constructors reproduce that disjoint dispatch. -/
inductive Operand : Type where
  | inst : pyvalues → Operand
  | tup : List Val → Operand
  | dict : PyDict → Operand
  | other : Val → Operand

/-- `pyvalues.__eq__` (source lines 62-82).  The `self is other` identity
shortcut of line 64 is subsumed here: structural equality on `Val` is
reflexive, so the structural branches below already return `True` when the
operand is the instance itself. -/
def pyvalues_eq (self : pyvalues) : Operand → Bool
  | .inst other => (self.args == other.args) && dictEqB self.kwds.entries other.kwds.entries
  | .tup t => self.kwds.entries.isEmpty && (self.args == t)
  | .dict d => self.args.isEmpty && dictEqB self.kwds.entries d.entries
  | .other _ => false

/-- Order-dependent combination of the element hashes of a tuple, modelling
`tuple.__hash__`'s mixing. -/
def tupleCombine (hs : List Nat) : Nat :=
  hs.foldl (fun acc h => acc * 1000003 + h + 97) 5381

/-- Model of `tuple.__hash__` on a list of values: fails with `TypeError`
(`unhashableValue`) when any element is unhashable, otherwise mixes the
element hashes in order. -/
def tupleHash (l : List Val) : Except PyErr Nat :=
  if l.all hashable then .ok (tupleCombine (l.map pyhashV)) else .error .unhashableValue

/-- Hash of one `(key, value)` item tuple of the dict, as hashed while
building `frozenset(self.__kwds.items())`; the key is a string and always
hashable. -/
def pairHashV (e : String × Val) : Nat :=
  e.1.hash.toNat * 1000003 + pyhashV e.2 + 97

/-- Model of `hash(frozenset(entries))` from source line 57: fails when any
named value is unhashable (the `frozenset` constructor hashes every item),
otherwise combines the item hashes with a commutative, associative operation
(here: sum), making the digest independent of insertion order exactly as a
frozenset hash is. -/
def itemsHash (es : List (String × Val)) : Except PyErr Nat :=
  if es.all (fun e => hashable e.2) then .ok ((es.map pairHashV).sum)
  else .error .unhashableValue

/-- `pyvalues.__hash__` (source lines 52-59), without the memoisation cell
`self.__hashed`, which only caches this pure result: start from the tuple
hash of the positionals; if the keyword dict is non-empty, add the
frozenset hash of its items. -/
def pyvaluesHash (v : pyvalues) : Except PyErr Nat :=
  match tupleHash v.args with
  | .error e => .error e
  | .ok th =>
      if v.kwds.entries.isEmpty then .ok th
      else
        match itemsHash v.kwds.entries with
        | .error e => .error e
        | .ok ih => .ok (th + ih)

/-- A subscript key of `pyvalues.__getitem__`: an integer index or any other
(string) key.  Slices, which line 124 of the source also routes to
`tuple.__getitem__`, are outside every claim and therefore not modelled. -/
inductive Key : Type where
  | idx : Int → Key
  | name : String → Key

/-- `tuple.__getitem__` with an integer index, as CPython defines it: a
negative index counts from the end (`i + len`), and an index that is still
outside `[0, len)` after that adjustment raises `IndexError`
(`indexOutOfRange`). -/
def tupleGet (l : List Val) (i : Int) : Except PyErr Val :=
  let j : Int := if i < 0 then i + l.length else i
  if h : 0 ≤ j ∧ j < l.length then
    .ok (l.get ⟨j.toNat, by
      rcases h with ⟨h0, h1⟩
      omega
      ⟩)
  else .error .indexOutOfRange

/-- `pyvalues.__getitem__` (source lines 123-127): integer keys go to the
positional tuple, any other key is looked up in `self.__kwds`, raising
`KeyError` (`keyNotFound`) when absent. -/
def getItem (v : pyvalues) : Key → Except PyErr Val
  | .idx i => tupleGet v.args i
  | .name s =>
      match dlookup s v.kwds.entries with
      | some x => .ok x
      | none => .error .keyNotFound

/-- Python's `dict.update` on entry lists: entries of `base` whose key also
occurs in `ex` get `ex`'s value (keeping their position), and entries of `ex`
with fresh keys are appended in `ex`'s order. -/
def dictUpdate (base ex : List (String × Val)) : List (String × Val) :=
  base.map (fun e =>
    match dlookup e.1 ex with
    | some w => (e.1, w)
    | none => e)
  ++ ex.filter (fun e => (dlookup e.1 base).isNone)

/-- The positional arguments `pyvalues.__call__` (source lines 134-139)
hands to the target: with extra positionals and a non-empty instance they
are concatenated after the instance's positionals; with an empty instance
the extras are used alone; without extras the instance's positionals are
used. -/
def callArgs (v : pyvalues) (args : List Val) : List Val :=
  if !args.isEmpty then
    if !v.args.isEmpty then v.args ++ args else args
  else v.args

/-- The named arguments `pyvalues.__call__` (source lines 141-147) hands to
the target: extra named arguments are merged over a copy of the instance's
dict (`tmp = dict(self.__kwds); tmp.update(kwds)`), so the extras win on key
collision; without extras the instance's dict itself is passed. -/
def callKwds (v : pyvalues) (kwds : List (String × Val)) : List (String × Val) :=
  if !kwds.isEmpty then
    if !v.kwds.entries.isEmpty then dictUpdate v.kwds.entries kwds else kwds
  else v.kwds.entries

/-- `pyvalues.__call__` (source lines 134-149) for a target `f` abstracted
as a function of the delivered positional and named arguments.  The second
component of the result is the instance after the call: the source only
rebinds the locals `args` and `kwds` (the merge happens on the copy `tmp`),
so the instance comes back unchanged. -/
def pyvalues_call {α : Type} (v : pyvalues) (f : List Val → List (String × Val) → α)
    (args : List Val) (kwds : List (String × Val)) : α × pyvalues :=
  (f (callArgs v args) (callKwds v kwds), v)

/-- Model of an external positional-only Python target of arity `n` (such as
`lambda a, b, c: ...`): the call succeeds, returning the received
positionals, exactly when it gets `n` positional arguments and no keyword
arguments; otherwise Python raises `TypeError` (`signatureMismatch`). -/
def applyArity (n : Nat) (args : List Val) (kwds : List (String × Val)) :
    Except PyErr (List Val) :=
  if (args.length == n) && kwds.isEmpty then .ok args else .error .signatureMismatch

/-- `pyvalues.__new__` (source lines 34-39): capture the positional tuple
and the keyword dict. -/
def pyvalues_new (args : List Val) (kwds : PyDict) : pyvalues :=
  ⟨args, kwds⟩

/-- The self-construction idiom `v(values)` from the repository's
`test_copy`: invoke `v` with no extra arguments on the constructor, so the
new instance is built from exactly the arguments `__call__` delivers. -/
def selfConstruct (v : pyvalues) : pyvalues :=
  pyvalues_new (callArgs v []) ⟨callKwds v [], by simp [callKwds, v.kwds.nodup]⟩

/-! ### Concrete instances used by witnesses and counterexamples -/

/-- The empty keyword dict. -/
def noKwds : PyDict := ⟨[], List.nodup_nil⟩

/-- `values(1, 2)`. -/
def vOneTwo : pyvalues := ⟨[VInt 1, VInt 2], noKwds⟩

/-- `values(1, 2, 3)`. -/
def vOneTwoThree : pyvalues := ⟨[VInt 1, VInt 2, VInt 3], noKwds⟩

/-- `values(1, x=2, y=3)`. -/
def wA : pyvalues := ⟨[VInt 1], ⟨[("x", VInt 2), ("y", VInt 3)], by simp⟩⟩

/-- `values(1, y=3, x=2)`: the same members as `wA` with the named entries
inserted in the opposite order. -/
def wB : pyvalues := ⟨[VInt 1], ⟨[("y", VInt 3), ("x", VInt 2)], by simp⟩⟩

/-- `values(1, foo=9)`: non-empty positionals and non-empty named part. -/
def wMixed : pyvalues := ⟨[VInt 1], ⟨[("foo", VInt 9)], by simp⟩⟩

/-! ### Lemmas about association-list lookup and dict equality -/

theorem dlookup_eq_some_of_mem {es : List (String × Val)} {k : String} {x : Val}
    (nd : (es.map Prod.fst).Nodup) (h : (k, x) ∈ es) : dlookup k es = some x := by
  induction es with
  | nil => cases h
  | cons e rest ih =>
      rcases List.mem_cons.mp h with he | hrest
      · subst he
        simp [dlookup]
      · have hk : e.1 ≠ k := by
          intro hek
          have : k ∈ rest.map Prod.fst := List.mem_map.mpr ⟨(k, x), hrest, rfl⟩
          rw [List.map_cons, List.nodup_cons] at nd
          exact nd.1 (hek ▸ this)
        simp only [dlookup, if_neg hk]
        exact ih (by rw [List.map_cons, List.nodup_cons] at nd; exact nd.2) hrest

theorem mem_of_dlookup_eq_some {es : List (String × Val)} {k : String} {x : Val}
    (h : dlookup k es = some x) : (k, x) ∈ es := by
  induction es with
  | nil => simp [dlookup] at h
  | cons e rest ih =>
      by_cases hk : e.1 = k
      · simp only [dlookup, if_pos hk] at h
        have : e = (k, x) := by
          cases e
          simp_all
        exact this ▸ List.mem_cons_self _ _
      · simp only [dlookup, if_neg hk] at h
        exact List.mem_cons_of_mem _ (ih h)

theorem dlookup_eq_none_iff {es : List (String × Val)} {k : String} :
    dlookup k es = none ↔ k ∉ es.map Prod.fst := by
  induction es with
  | nil => simp [dlookup]
  | cons e rest ih =>
      by_cases hk : e.1 = k
      · simp [dlookup, hk]
      · simp [dlookup, hk, ih, Ne.symm hk]

theorem dlookup_isSome_iff {es : List (String × Val)} {k : String} :
    (dlookup k es).isSome = true ↔ k ∈ es.map Prod.fst := by
  constructor
  · intro hs
    rcases Option.isSome_iff_exists.mp hs with ⟨x, hx⟩
    exact List.mem_map.mpr ⟨(k, x), mem_of_dlookup_eq_some hx, rfl⟩
  · intro hk
    cases hx : dlookup k es with
    | some x => rfl
    | none => exact absurd hk (dlookup_eq_none_iff.mp hx)

theorem dictEqB_refl {es : List (String × Val)} (nd : (es.map Prod.fst).Nodup) :
    dictEqB es es = true := by
  rw [dictEqB, Bool.and_eq_true, beq_iff_eq, List.all_eq_true]
  refine ⟨rfl, fun e he => ?_⟩
  have : dlookup e.1 es = some e.2 := dlookup_eq_some_of_mem nd (by simpa using he)
  simp [this]

/-- Two duplicate-free lists of equal length, one contained in the other,
have the same members. -/
theorem mem_iff_of_nodup_of_length {A B : List String}
    (nda : A.Nodup) (ndb : B.Nodup) (hlen : A.length = B.length)
    (hsub : ∀ k, k ∈ A → k ∈ B) : ∀ k, (k ∈ A ↔ k ∈ B) := by
  have hsub' : A.toFinset ⊆ B.toFinset := fun k hk =>
    List.mem_toFinset.mpr (hsub k (List.mem_toFinset.mp hk))
  have hcard : B.toFinset.card ≤ A.toFinset.card := by
    rw [List.toFinset_card_of_nodup nda, List.toFinset_card_of_nodup ndb, hlen]
  have heq : A.toFinset = B.toFinset := Finset.eq_of_subset_of_card_le hsub' hcard
  intro k
  constructor
  · intro hk
    exact List.mem_toFinset.mp (heq ▸ List.mem_toFinset.mpr hk)
  · intro hk
    exact List.mem_toFinset.mp (heq ▸ List.mem_toFinset.mpr hk)

/-- Python dict equality decides extensional equality of the lookup
functions, given the no-duplicate-keys invariant on both sides. -/
theorem dictEqB_iff {a b : List (String × Val)}
    (nda : (a.map Prod.fst).Nodup) (ndb : (b.map Prod.fst).Nodup) :
    dictEqB a b = true ↔ ∀ k, dlookup k a = dlookup k b := by
  rw [dictEqB, Bool.and_eq_true, beq_iff_eq, List.all_eq_true]
  constructor
  · rintro ⟨hlen, hall⟩ k
    have hall' : ∀ e ∈ a, dlookup e.1 b = some e.2 := fun e he => by
      simpa using hall e he
    cases hx : dlookup k a with
    | some x =>
        exact (hall' (k, x) (mem_of_dlookup_eq_some hx)).symm
    | none =>
        have hka : k ∉ a.map Prod.fst := dlookup_eq_none_iff.mp hx
        have hsub : ∀ k', k' ∈ a.map Prod.fst → k' ∈ b.map Prod.fst := by
          intro k' hk'
          rcases List.mem_map.mp hk' with ⟨e, he, hke⟩
          have : e.1 ∈ b.map Prod.fst := by
            rw [← dlookup_isSome_iff, hall' e he]
            rfl
          exact hke ▸ this
        have hmem := mem_iff_of_nodup_of_length nda ndb (by simpa using hlen) hsub k
        rw [eq_comm, dlookup_eq_none_iff]
        exact fun hkb => hka (hmem.mpr hkb)
  · intro h
    constructor
    · have hmem : ∀ k, (k ∈ a.map Prod.fst ↔ k ∈ b.map Prod.fst) := by
        intro k
        rw [← dlookup_isSome_iff, ← dlookup_isSome_iff, h k]
      have : (a.map Prod.fst).toFinset = (b.map Prod.fst).toFinset := by
        apply Finset.ext
        intro k
        rw [List.mem_toFinset, List.mem_toFinset]
        exact hmem k
      have hlen : (a.map Prod.fst).length = (b.map Prod.fst).length := by
        rw [← List.toFinset_card_of_nodup nda, ← List.toFinset_card_of_nodup ndb, this]
      simpa using hlen
    · intro e he
      have : dlookup e.1 a = some e.2 := dlookup_eq_some_of_mem nda (by simpa using he)
      simp [← h e.1, this]

/-! ### Permutation lemmas: insertion order of dict entries is immaterial -/

theorem all_of_perm {α : Type} {l1 l2 : List α} (p : α → Bool) (h : l1.Perm l2) :
    l1.all p = l2.all p := by
  apply Bool.eq_iff_iff.mpr
  rw [List.all_eq_true, List.all_eq_true]
  exact ⟨fun ha x hx => ha x (h.mem_iff.mpr hx), fun ha x hx => ha x (h.mem_iff.mp hx)⟩

theorem itemsHash_perm {a b : List (String × Val)} (h : a.Perm b) :
    itemsHash a = itemsHash b := by
  rw [itemsHash, itemsHash, all_of_perm _ h, (h.map pairHashV).sum_eq]

theorem dictEqB_of_perm {a b : List (String × Val)}
    (nda : (a.map Prod.fst).Nodup) (h : a.Perm b) : dictEqB a b = true := by
  have ndb : (b.map Prod.fst).Nodup := ((h.map Prod.fst).nodup_iff).mp nda
  rw [dictEqB, Bool.and_eq_true, beq_iff_eq, List.all_eq_true]
  refine ⟨h.length_eq, fun e he => ?_⟩
  have : dlookup e.1 b = some e.2 :=
    dlookup_eq_some_of_mem ndb (h.mem_iff.mp (by simpa using he))
  simp [this]

/-! ### Lookup through `dict.update` -/

theorem dlookup_append (k : String) (l1 l2 : List (String × Val)) :
    dlookup k (l1 ++ l2) =
      match dlookup k l1 with
      | some v => some v
      | none => dlookup k l2 := by
  induction l1 with
  | nil => simp [dlookup]
  | cons e rest ih =>
      by_cases hk : e.1 = k
      · simp [dlookup, hk]
      · simp [dlookup, hk, ih]

theorem dlookup_map_subst (k : String) (base ex : List (String × Val)) :
    dlookup k (base.map (fun e =>
        match dlookup e.1 ex with
        | some w => (e.1, w)
        | none => e)) =
      match dlookup k base with
      | none => none
      | some v =>
          match dlookup k ex with
          | some w => some w
          | none => some v := by
  induction base with
  | nil => simp [dlookup]
  | cons e rest ih =>
      by_cases hk : e.1 = k
      · subst hk
        cases hx : dlookup e.1 ex with
        | some w => simp [dlookup, hx]
        | none => simp [dlookup, hx]
      · cases hx : dlookup e.1 ex with
        | some w => simpa [dlookup, hx, hk] using ih
        | none => simpa [dlookup, hx, hk] using ih

theorem dlookup_filter_fresh (k : String) (base ex : List (String × Val)) :
    dlookup k (ex.filter (fun e => (dlookup e.1 base).isNone)) =
      if (dlookup k base).isNone then dlookup k ex else none := by
  induction ex with
  | nil => simp [dlookup]
  | cons e rest ih =>
      by_cases hk : e.1 = k
      · subst hk
        cases hb : (dlookup e.1 base).isNone with
        | true => simp [List.filter_cons, hb, dlookup]
        | false => simpa [List.filter_cons, hb, dlookup] using ih
      · cases hb : (dlookup e.1 base).isNone with
        | true => simpa [List.filter_cons, hb, dlookup, hk] using ih
        | false => simpa [List.filter_cons, hb, dlookup, hk] using ih

/-- The lookup semantics of the merge `tmp = dict(base); tmp.update(ex)`:
the extras win on key collision, the base answers otherwise. -/
theorem dlookup_dictUpdate (k : String) (base ex : List (String × Val)) :
    dlookup k (dictUpdate base ex) =
      match dlookup k ex with
      | some w => some w
      | none => dlookup k base := by
  rw [dictUpdate, dlookup_append, dlookup_map_subst, dlookup_filter_fresh]
  cases hb : dlookup k base with
  | some v =>
      cases hx : dlookup k ex with
      | some w => simp [hb, hx]
      | none => simp [hb, hx]
  | none =>
      cases hx : dlookup k ex with
      | some w => simp [hb, hx]
      | none => simp [hb, hx]

theorem isEmpty_false_of_ne_nil {α : Type} {l : List α} (h : l ≠ []) :
    l.isEmpty = false := by
  cases l with
  | nil => exact absurd rfl h
  | cons a r => rfl

/-! ### The claims -/

/-- Claim C2: instance-vs-instance equality holds exactly when the
positional sequences are element-wise equal and the named mappings agree as
mappings (same keys bound to the same values, independent of insertion
order), and every instance is equal to itself. -/
theorem eq_inst_iff (a b : pyvalues) :
    (pyvalues_eq a (.inst b) = true ↔
      (a.args = b.args ∧
        ∀ k, dlookup k a.kwds.entries = dlookup k b.kwds.entries))
    ∧ pyvalues_eq a (.inst a) = true := by
  constructor
  · show ((a.args == b.args) && dictEqB a.kwds.entries b.kwds.entries) = true ↔ _
    rw [Bool.and_eq_true, beq_iff_eq, dictEqB_iff a.kwds.nodup b.kwds.nodup]
  · show ((a.args == a.args) && dictEqB a.kwds.entries a.kwds.entries) = true
    rw [Bool.and_eq_true, beq_iff_eq]
    exact ⟨rfl, dictEqB_refl a.kwds.nodup⟩

/-- Claim C3: two instances with identical positionals and the same named
entries in any insertion order are equal and hash identically; the hash is
the ordered tuple hash of the positionals combined with an
insertion-order-independent digest of the named entries. -/
theorem perm_eq_and_hash (a b : pyvalues)
    (hargs : a.args = b.args) (hperm : a.kwds.entries.Perm b.kwds.entries) :
    pyvalues_eq a (.inst b) = true ∧ pyvaluesHash a = pyvaluesHash b := by
  constructor
  · show ((a.args == b.args) && dictEqB a.kwds.entries b.kwds.entries) = true
    rw [Bool.and_eq_true, beq_iff_eq]
    exact ⟨hargs, dictEqB_of_perm a.kwds.nodup hperm⟩
  · have hempty : a.kwds.entries.isEmpty = b.kwds.entries.isEmpty := by
      apply Bool.eq_iff_iff.mpr
      rw [List.isEmpty_iff, List.isEmpty_iff]
      constructor
      · intro h
        exact (h ▸ hperm).symm.eq_nil
      · intro h
        exact (h ▸ hperm).eq_nil
    simp only [pyvaluesHash, hargs, hempty, itemsHash_perm hperm]

/-- Claim C3 witness: `values(1, x=2, y=3)` and `values(1, y=3, x=2)` are
equal and hash identically. -/
theorem perm_eq_and_hash_witness :
    pyvalues_eq wA (.inst wB) = true ∧ pyvaluesHash wA = pyvaluesHash wB :=
  perm_eq_and_hash wA wB rfl (List.Perm.swap _ _ _)

/-- Claim C4: with no named entries, an instance hashes exactly like the
bare tuple of its positionals and is equal to that tuple; with named
entries present, the instance is never equal to any plain tuple. -/
theorem empty_kwds_tuple (v : pyvalues) :
    (v.kwds.entries = [] →
      pyvaluesHash v = tupleHash v.args ∧ pyvalues_eq v (.tup v.args) = true)
    ∧ (v.kwds.entries ≠ [] → ∀ t, pyvalues_eq v (.tup t) = false) := by
  constructor
  · intro h
    constructor
    · simp only [pyvaluesHash, h]
      cases htv : tupleHash v.args with
      | error e => rfl
      | ok th => rfl
    · show (v.kwds.entries.isEmpty && (v.args == v.args)) = true
      simp [h]
  · intro h t
    have : v.kwds.entries.isEmpty = false := isEmpty_false_of_ne_nil h
    show (v.kwds.entries.isEmpty && (v.args == t)) = false
    simp [this]

/-- Claim C4 witness: `values(1, 2, 3)` hashes like and equals the tuple
`(1, 2, 3)`, and `values(1, x=2, y=3)` is unequal to the tuple `(1,)`. -/
theorem empty_kwds_tuple_witness :
    (pyvaluesHash vOneTwoThree = tupleHash vOneTwoThree.args ∧
      pyvalues_eq vOneTwoThree (.tup vOneTwoThree.args) = true)
    ∧ pyvalues_eq wA (.tup [VInt 1]) = false :=
  ⟨(empty_kwds_tuple vOneTwoThree).1 rfl,
    (empty_kwds_tuple wA).2 (by simp [wA]) [VInt 1]⟩

/-- Claim C5: an instance with non-empty positionals and non-empty named
entries is equal to no plain tuple and no plain dict, whatever their
contents. -/
theorem mixed_never_plain (v : pyvalues)
    (ha : v.args ≠ []) (hk : v.kwds.entries ≠ []) :
    (∀ t, pyvalues_eq v (.tup t) = false)
    ∧ (∀ d : PyDict, pyvalues_eq v (.dict d) = false) := by
  have hek : v.kwds.entries.isEmpty = false := isEmpty_false_of_ne_nil hk
  have hea : v.args.isEmpty = false := isEmpty_false_of_ne_nil ha
  constructor
  · intro t
    show (v.kwds.entries.isEmpty && (v.args == t)) = false
    simp [hek]
  · intro d
    show (v.args.isEmpty && dictEqB v.kwds.entries d.entries) = false
    simp [hea]

/-- Claim C5 witness: `values(1, foo=9)` is unequal to the tuple `(1,)` and
to the dict `{"foo": 9}`. -/
theorem mixed_never_plain_witness :
    pyvalues_eq wMixed (.tup [VInt 1]) = false
    ∧ pyvalues_eq wMixed (.dict ⟨[("foo", VInt 9)], by simp⟩) = false :=
  ⟨(mixed_never_plain wMixed (by simp [wMixed]) (by simp [wMixed])).1 [VInt 1],
    (mixed_never_plain wMixed (by simp [wMixed]) (by simp [wMixed])).2 _⟩

/-- Claim C10: equality against an operand that is neither a `pyvalues`
instance nor a tuple nor a dict is always false — in particular a mutable
list is never equal to an instance, whatever the instance holds. -/
theorem eq_other_false (v : pyvalues) (x : Val) :
    pyvalues_eq v (.other x) = false := rfl

/-- Claim C9: invoking an instance on its own constructor rebuilds an
instance that the equality operation deems equal — the canonical copy
round-trips through equality. -/
theorem self_construct_eq (v : pyvalues) :
    pyvalues_eq v (.inst (selfConstruct v)) = true := by
  have h1 : (selfConstruct v).args = v.args := rfl
  have h2 : (selfConstruct v).kwds.entries = v.kwds.entries := rfl
  show ((v.args == (selfConstruct v).args) &&
        dictEqB v.kwds.entries (selfConstruct v).kwds.entries) = true
  rw [h1, h2, Bool.and_eq_true, beq_iff_eq]
  exact ⟨rfl, dictEqB_refl v.kwds.nodup⟩

/-- Claim C7: hashing fails with `UnhashableValueError` exactly when some
stored value — positional or named alike — is unhashable, and succeeds
exactly when every stored value is hashable. -/
theorem hash_unhashable_iff (v : pyvalues) :
    (pyvaluesHash v = .error .unhashableValue ↔
      ((∃ x ∈ v.args, hashable x = false) ∨
        (∃ e ∈ v.kwds.entries, hashable e.2 = false)))
    ∧ ((∃ n, pyvaluesHash v = .ok n) ↔
      ((∀ x ∈ v.args, hashable x = true) ∧
        (∀ e ∈ v.kwds.entries, hashable e.2 = true))) := by
  by_cases ha : v.args.all hashable = true
  · by_cases hk : v.kwds.entries.all (fun e => hashable e.2) = true
    · have hok : ∃ n, pyvaluesHash v = .ok n := by
        simp only [pyvaluesHash, tupleHash, itemsHash, if_pos ha, if_pos hk]
        by_cases he : v.kwds.entries.isEmpty = true
        · exact ⟨_, by rw [if_pos he]⟩
        · exact ⟨_, by rw [if_neg he]⟩
      rw [List.all_eq_true] at ha hk
      obtain ⟨n, hn⟩ := hok
      constructor
      · rw [hn]
        constructor
        · intro h
          cases h
        · rintro (⟨x, hx, hfx⟩ | ⟨e, he, hfe⟩)
          · rw [ha x hx] at hfx
            cases hfx
          · rw [hk e he] at hfe
            cases hfe
      · exact iff_of_true ⟨n, hn⟩ ⟨ha, fun e he => hk e he⟩
    · have hexk : ∃ e ∈ v.kwds.entries, hashable e.2 = false := by
        rw [List.all_eq_true] at hk
        push_neg at hk
        obtain ⟨e, he, hfe⟩ := hk
        exact ⟨e, he, by simpa using hfe⟩
      obtain ⟨e, he, hfe⟩ := hexk
      have hne : v.kwds.entries.isEmpty = false :=
        isEmpty_false_of_ne_nil (List.ne_nil_of_mem he)
      have hkf : v.kwds.entries.all (fun e => hashable e.2) = false :=
        Bool.eq_false_iff.mpr hk
      have hval : pyvaluesHash v = .error .unhashableValue := by
        simp [pyvaluesHash, tupleHash, itemsHash, ha, hne, hkf]
      constructor
      · exact iff_of_true hval (Or.inr ⟨e, he, hfe⟩)
      · constructor
        · rintro ⟨n, hn⟩
          rw [hval] at hn
          cases hn
        · rintro ⟨_, h2⟩
          rw [h2 e he] at hfe
          cases hfe
  · have hexa : ∃ x ∈ v.args, hashable x = false := by
      rw [List.all_eq_true] at ha
      push_neg at ha
      obtain ⟨x, hx, hfx⟩ := ha
      exact ⟨x, hx, by simpa using hfx⟩
    obtain ⟨x, hx, hfx⟩ := hexa
    have haf : v.args.all hashable = false := Bool.eq_false_iff.mpr ha
    have hval : pyvaluesHash v = .error .unhashableValue := by
      simp [pyvaluesHash, tupleHash, haf]
    constructor
    · exact iff_of_true hval (Or.inl ⟨x, hx, hfx⟩)
    · constructor
      · rintro ⟨n, hn⟩
        rw [hval] at hn
        cases hn
      · rintro ⟨h1, _⟩
        rw [h1 x hx] at hfx
        cases hfx

/-- Claim C6 counterexample: on `values(1, 2, 3)` the integer key `-1` lies
outside `[0, len(positionals))`, yet subscripting returns the last
positional value instead of raising `IndexOutOfRangeError` — negative
indices wrap around, as they do on every Python tuple. -/
theorem getitem_neg_index_counterexample :
    ¬ (0 ≤ (-1 : Int)) ∧ vOneTwoThree.args.length = 3 ∧
      getItem vOneTwoThree (.idx (-1)) = .ok (VInt 3) :=
  ⟨by decide, rfl, rfl⟩

/-- Claim C6 as amended: an integer key `i` with `0 ≤ i < len` returns the
`i`-th positional; an integer key `i` with `-len ≤ i < 0` wraps and returns
the `(i + len)`-th positional; any other integer raises
`IndexOutOfRangeError`; a non-integer key is looked up in the named
mapping, returning the mapped value when present and raising
`KeyNotFoundError` when absent. -/
theorem getitem_cases (v : pyvalues) :
    (∀ i : Int, 0 ≤ i → i < (v.args.length : Int) →
      ∃ h : i.toNat < v.args.length,
        getItem v (.idx i) = .ok (v.args.get ⟨i.toNat, h⟩))
    ∧ (∀ i : Int, i < 0 → 0 ≤ i + (v.args.length : Int) →
      ∃ h : (i + (v.args.length : Int)).toNat < v.args.length,
        getItem v (.idx i) = .ok (v.args.get ⟨(i + (v.args.length : Int)).toNat, h⟩))
    ∧ (∀ i : Int, i + (v.args.length : Int) < 0 ∨ (v.args.length : Int) ≤ i →
      getItem v (.idx i) = .error .indexOutOfRange)
    ∧ (∀ (s : String) (x : Val), dlookup s v.kwds.entries = some x →
      getItem v (.name s) = .ok x)
    ∧ (∀ s : String, dlookup s v.kwds.entries = none →
      getItem v (.name s) = .error .keyNotFound) := by
  refine ⟨?_, ?_, ?_, ?_, ?_⟩
  · intro i h0 h1
    have hnlt : ¬ i < 0 := by omega
    refine ⟨by omega, ?_⟩
    show tupleGet v.args i = _
    simp only [tupleGet, if_neg hnlt]
    rw [dif_pos ⟨h0, h1⟩]
  · intro i hlt h0
    have h1 : i + (v.args.length : Int) < v.args.length := by omega
    refine ⟨by omega, ?_⟩
    show tupleGet v.args i = _
    simp only [tupleGet, if_pos hlt]
    rw [dif_pos ⟨h0, h1⟩]
  · intro i hout
    show tupleGet v.args i = _
    by_cases hneg : i < 0
    · simp only [tupleGet, if_pos hneg]
      rw [dif_neg (by omega)]
    · simp only [tupleGet, if_neg hneg]
      rw [dif_neg (by omega)]
  · intro s x h
    show (match dlookup s v.kwds.entries with
          | some x => Except.ok x
          | none => Except.error PyErr.keyNotFound) = _
    rw [h]
  · intro s h
    show (match dlookup s v.kwds.entries with
          | some x => Except.ok x
          | none => Except.error PyErr.keyNotFound) = _
    rw [h]

/-- Claim C6 witness: on `values(1, 2, 3)` the key `5` is rejected with
`IndexOutOfRangeError` and the absent name `"a"` with `KeyNotFoundError`. -/
theorem getitem_cases_witness :
    getItem vOneTwoThree (.idx 5) = .error .indexOutOfRange ∧
    getItem vOneTwoThree (.name "a") = .error .keyNotFound :=
  ⟨(getitem_cases vOneTwoThree).2.2.1 5 (Or.inr (by decide)),
    (getitem_cases vOneTwoThree).2.2.2.2 "a" rfl⟩

/-- Claim C1 counterexample: `values(1, 2)` invoked with the extra
positional `3` silently concatenates — the target receives `(1, 2, 3)`, and
a target of arity three accepts the call instead of any arity mismatch
being raised. -/
theorem call_concat_counterexample :
    callArgs vOneTwo [VInt 3] = [VInt 1, VInt 2, VInt 3] ∧
    applyArity 3 (callArgs vOneTwo [VInt 3]) (callKwds vOneTwo []) =
      .ok [VInt 1, VInt 2, VInt 3] :=
  ⟨rfl, rfl⟩

/-- Claim C1 as amended: when extra positionals are supplied and the
instance has positionals, the extras are concatenated after the instance's
positionals, so a target whose arity the instance's positionals alone would
satisfy rejects the call with `SignatureMismatchError` (a target expecting
the combined count accepts it instead); when the instance has no
positionals, the extras become the call's positional arguments. -/
theorem call_args_concat (v : pyvalues) (extras : List Val) (hne : extras ≠ []) :
    (v.args ≠ [] →
      callArgs v extras = v.args ++ extras ∧
      applyArity v.args.length (callArgs v extras) [] = .error .signatureMismatch)
    ∧ (v.args = [] → callArgs v extras = extras) := by
  have he : extras.isEmpty = false := isEmpty_false_of_ne_nil hne
  constructor
  · intro ha
    have ha' : v.args.isEmpty = false := isEmpty_false_of_ne_nil ha
    have hcat : callArgs v extras = v.args ++ extras := by
      simp [callArgs, he, ha']
    refine ⟨hcat, ?_⟩
    have hlen : (v.args ++ extras).length ≠ v.args.length := by
      rw [List.length_append]
      have : 0 < extras.length := List.length_pos.mpr hne
      omega
    rw [hcat, applyArity, if_neg]
    simp only [Bool.and_eq_true, beq_iff_eq]
    rintro ⟨h1, _⟩
    exact hlen h1
  · intro ha
    simp [callArgs, he, ha]

/-- Claim C1 witness: `values(1, 2)` with the extra positional `3` delivers
the concatenation, and an arity-two target rejects it. -/
theorem call_args_concat_witness :
    callArgs vOneTwo [VInt 3] = vOneTwo.args ++ [VInt 3] ∧
    applyArity vOneTwo.args.length (callArgs vOneTwo [VInt 3]) [] =
      .error .signatureMismatch :=
  (call_args_concat vOneTwo [VInt 3] (by simp)).1 (by simp [vOneTwo])

/-- Claim C8: the named arguments handed to the target are the instance's
named entries with the extras winning on key collision; with no extras the
instance's dict itself is passed unmodified; and the instance comes back
from the call with its members untouched. -/
theorem call_kwds_merge (v : pyvalues) (ex : PyDict) :
    (∀ k, dlookup k (callKwds v ex.entries) =
      match dlookup k ex.entries with
      | some w => some w
      | none => dlookup k v.kwds.entries)
    ∧ callKwds v [] = v.kwds.entries
    ∧ (∀ (args : List Val) (f : List Val → List (String × Val) → List Val),
        (pyvalues_call v f args ex.entries).2 = v) := by
  refine ⟨?_, rfl, fun args f => rfl⟩
  intro k
  by_cases hex : ex.entries.isEmpty = true
  · have hnil : ex.entries = [] := List.isEmpty_iff.mp hex
    have hck : callKwds v ex.entries = v.kwds.entries := by
      simp [callKwds, hnil]
    rw [hck, hnil]
    simp [dlookup]
  · have hex' : ex.entries.isEmpty = false := Bool.eq_false_iff.mpr hex
    by_cases hvk : v.kwds.entries.isEmpty = true
    · have hnil : v.kwds.entries = [] := List.isEmpty_iff.mp hvk
      have hck : callKwds v ex.entries = ex.entries := by
        simp [callKwds, hex', hvk]
      rw [hck, hnil]
      cases hx : dlookup k ex.entries with
      | some w => simp [hx]
      | none => simp [hx, dlookup]
    · have hvk' : v.kwds.entries.isEmpty = false := Bool.eq_false_iff.mpr hvk
      have hck : callKwds v ex.entries = dictUpdate v.kwds.entries ex.entries := by
        simp [callKwds, hex', hvk']
      rw [hck]
      exact dlookup_dictUpdate k v.kwds.entries ex.entries

end Values
